import Mathlib

/-!
Verification of the Resource Allocation Agent core.

Shallow embedding of `src/ResourceAllocationAgent.ts` (Cloudflare Agents SDK,
class `ResourceAllocationAgent`).  The agent is a single logical writer: every
public operation reads `this.state`, builds a new state object and commits it
with `setState`.  We embed each operation as a pure Lean function from the
state (plus the environment inputs the TypeScript code obtains at run time:
fresh ids from `generateId()`, the clock `Date.now()` / `new Date()`, and the
MCP transport) to the returned value, the committed state, and an ordered
trace of the externally visible effects (`setState` commits and
`notifyViaMcp` dispatches).

Modelling conventions, each noted again at its definition site:
* Timestamps (`assignedAt`, `dueReturnAt`, `requestedAt`, `Date.now()`) are
  `Nat` milliseconds; calendar-date strings (`todayDateString()`, the `date`
  field of utilization entries) are `Nat` UTC day numbers
  `ms / 86400000`.  Comparison of equal-length ISO date strings is
  lexicographic in the source, which is order-isomorphic to `Nat` order on
  day numbers.
* Fresh ids produced by `generateId()` are `String` parameters supplied by
  the caller of the embedded operation.
* `Record<string, T>` objects used as dictionaries (`notifications`,
  `conversationByUser`) are association lists; `{ ...m, [k]: v }` updates the
  existing key in place or appends it, `delete m[k]` removes it.
* The Agents SDK applies `setState` synchronously: immediately after
  `this.setState(s)` returns, the `this.state` getter yields `s`.  The
  repository itself relies on this (e.g. `handleChat` re-reads `this.state`
  after `requestResource` has committed, and spreads it into its own
  `setState`; with a deferred `setState` that would drop the assignment).
* Human-readable `message` fields of the returned result objects are elided;
  the structured fields (`ok`, `assignmentId`, `waitlistPosition`,
  `autoAssigned`) are kept, as `RequestResult` / `ReturnResult`.
* `notifyViaMcp` never throws (every MCP failure is caught and logged) and
  its `void` result is discarded by every caller.  The MCP transport is an
  oracle `McpOracle` describing which servers are registered, connected and
  deliver successfully; it is threaded through the operations exactly where
  the source calls `notifyViaMcp`.
-/

/-- Embeds `ResourceType` from the source: `"equipment" | "license" | "parking"`. -/
inductive ResourceType
  | equipment
  | license
  | parking
deriving DecidableEq

/-- Embeds the `Resource` record.  `metadata?: Record<string,string>` is an optional
association list. -/
structure Resource where
  id : String
  type : ResourceType
  name : String
  quantity : Nat
  metadata : Option (List (String × String))
deriving DecidableEq

/-- Embeds the `status` of an `Assignment`: `"active" | "returned"`. -/
inductive AssignmentStatus
  | active
  | returned
deriving DecidableEq

/-- Embeds the `Assignment` record; timestamps are `Nat` milliseconds. -/
structure Assignment where
  id : String
  resourceId : String
  userId : String
  assignedAt : Nat
  dueReturnAt : Option Nat
  status : AssignmentStatus
deriving DecidableEq

/-- Embeds the `WaitlistEntry` record; `requestedAt` is `Nat` milliseconds,
`priority?: number` is an optional integer. -/
structure WaitlistEntry where
  id : String
  resourceId : String
  userId : String
  requestedAt : Nat
  priority : Option Int
deriving DecidableEq

/-- Embeds the `UtilizationLogEntry` record; `date` is the `Nat` UTC day number standing
for the ISO calendar-date string. -/
structure UtilizationLogEntry where
  resourceId : String
  date : Nat
  allocated : Nat
  total : Nat
deriving DecidableEq

/-- Embeds the `ConversationMessage` record: role (`true` = user, `false` = assistant)
and content. -/
structure ConversationMessage where
  isUser : Bool
  content : String
deriving DecidableEq

/-- Embeds `ResourceAllocationState`: the single serialized state document owned by
the agent.  The two `Record<string, _>` dictionaries are association lists. -/
structure ResourceAllocationState where
  resources : List Resource
  assignments : List Assignment
  waitlist : List WaitlistEntry
  utilizationLog : List UtilizationLogEntry
  notifications : List (String × List String)
  conversationByUser : List (String × List ConversationMessage)
deriving DecidableEq

/-- Embeds `initialState` of the agent: all collections empty. -/
def initialState : ResourceAllocationState :=
  { resources := []
    assignments := []
    waitlist := []
    utilizationLog := []
    notifications := []
    conversationByUser := [] }

/-- Embeds `REMINDER_HOURS_AHEAD = 24`. -/
def REMINDER_HOURS_AHEAD : Nat := 24

/-- Milliseconds per UTC day, used to turn a `Date.now()` millisecond clock
into the day number standing for `todayDateString()`. -/
def MS_PER_DAY : Nat := 86400000

/-- Embeds `todayDateString()`: it returns the UTC calendar date of the current time;
on the `Nat` millisecond clock that is the UTC day number. -/
def todayDate (now : Nat) : Nat := now / MS_PER_DAY

/-- Embeds `DEFAULT_RESOURCES`: the fixed catalog seeded on first start. -/
def DEFAULT_RESOURCES : List Resource :=
  [ { id := "P1", type := .parking, name := "Parking Spot 1", quantity := 1,
      metadata := some [("location", "Lot A")] }
  , { id := "P2", type := .parking, name := "Parking Spot 2", quantity := 1,
      metadata := some [("location", "Lot A")] }
  , { id := "L1", type := .license, name := "Adobe CC", quantity := 5,
      metadata := none }
  , { id := "E1", type := .equipment, name := "Projector", quantity := 2,
      metadata := none } ]

/-- Embeds `seedResourcesIfEmpty()`: if the catalog is empty, populate it with
`DEFAULT_RESOURCES` (the `conversationByUser ?? {}` normalization is the
identity here since the field is total). -/
def seedResourcesIfEmpty (s : ResourceAllocationState) : ResourceAllocationState :=
  if s.resources.length > 0 then s
  else { s with resources := DEFAULT_RESOURCES }

/-- The MCP transport oracle: which server ids `this.mcp.listServers()`
reports, which connections are in state `"ready"`, and which `callTool`
invocations succeed.  `notifyViaMcp` never throws regardless of the oracle. -/
structure McpOracle where
  servers : List String
  connected : String → Bool
  callOk : String → Bool

/-- The server order tried by `notifyViaMcp`: `MCP_NOTIFY_CONFIG`, reversed
when `preferServerId === "email"`. -/
def mcpNotifyOrder (preferServerId : Option String) : List String :=
  if preferServerId = some "email" then ["email", "slack"] else ["slack", "email"]

/-- Embeds `notifyViaMcp(userId, message, preferServerId?)`: it walks the configured
servers in order, skips those without a ready connection, stops at the first
successful `callTool`; every failure is caught.  Returns the server that
delivered, if any (the TypeScript return value is `void`; the delivering
server is the only observable distinction between oracle behaviours, and
every caller discards it). -/
def notifyViaMcp (o : McpOracle) (_userId _message : String)
    (preferServerId : Option String) : Option String :=
  if o.servers.isEmpty then none
  else ((mcpNotifyOrder preferServerId).filter
    (fun sid => o.connected sid && o.callOk sid)).head?

/-- Embeds `activeAssignmentCount(resourceId)`: assignments for the resource with
status `active`. -/
def activeAssignmentCount (s : ResourceAllocationState) (resourceId : String) : Nat :=
  (s.assignments.filter
    (fun a => a.resourceId == resourceId && a.status == AssignmentStatus.active)).length

/-- Embeds `getNextWaitlistEntry(resourceId)`: the source filters the waitlist to the
resource, sorts by `requestedAt` (`Array.prototype.sort` with comparator
`ta - tb`, a stable ascending sort since ES2019) and takes element `[0]`.  A
stable sort by a total preorder is uniquely determined, so the stable
`List.insertionSort` models it exactly. -/
def getNextWaitlistEntry (s : ResourceAllocationState) (resourceId : String) :
    Option WaitlistEntry :=
  (List.insertionSort (fun a b => a.requestedAt ≤ b.requestedAt)
    (s.waitlist.filter (fun w => w.resourceId == resourceId))).head?

/-- Embeds `{ ...m, [k]: v }` on a dictionary: update the key in place if present,
otherwise append it. -/
def recordSet (m : List (String × List String)) (k : String) (v : List String) :
    List (String × List String) :=
  if m.any (fun p => p.1 == k) then m.map (fun p => if p.1 == k then (k, v) else p)
  else m ++ [(k, v)]

/-- Embeds `m[k] ?? []` on a dictionary. -/
def recordGet (m : List (String × List String)) (k : String) : List String :=
  match m.find? (fun p => p.1 == k) with
  | some p => p.2
  | none => []

/-- Embeds `appendNotification(notifications, userId, message)`: append the message
to the user's queue. -/
def appendNotification (m : List (String × List String)) (userId message : String) :
    List (String × List String) :=
  recordSet m userId (recordGet m userId ++ [message])

/-- The externally visible effects of one operation, in program order:
`setStateEv` is a `this.setState(...)` commit, `notifyEv u` is a
`this.notifyViaMcp(u, ...)` dispatch. -/
inductive Event
  | setStateEv
  | notifyEv (userId : String)
deriving DecidableEq

/-- Structured result of `requestResource` (the `message` string is elided):
`unknownResource` is the `ok: false` early return, `granted` carries
`assignmentId`, `queued` carries `waitlistPosition`. -/
inductive RequestResult
  | unknownResource
  | granted (assignmentId : String)
  | queued (waitlistPosition : Nat)
deriving DecidableEq

/-- Structured result of `returnResource` (the `message` string is elided):
`noActiveAssignment` is the `ok: false` early return, `returned` carries the
optional `autoAssigned` user. -/
inductive ReturnResult
  | noActiveAssignment
  | returned (autoAssigned : Option String)
deriving DecidableEq

/-- Embeds `requestResource(resourceId, userId, dueReturnAt?)`.  Environment inputs:
`newId` is the `generateId()` value, `now` the clock, `o` the MCP transport.

The waitlist position is computed from `this.state.waitlist` AFTER
`setState` has committed the state containing the new entry (`setState` is
synchronous, see the header), so it counts the entry itself and then adds 1:
`position = |entries for the resource including the new one| + 1`. -/
def requestResource (o : McpOracle) (s : ResourceAllocationState)
    (resourceId userId : String) (dueReturnAt : Option Nat)
    (newId : String) (now : Nat) :
    RequestResult × ResourceAllocationState × List Event :=
  match s.resources.find? (fun r => r.id == resourceId) with
  | none => (.unknownResource, s, [])
  | some resource =>
    let used := activeAssignmentCount s resourceId
    if used < resource.quantity then
      let assignment : Assignment :=
        { id := newId, resourceId := resourceId, userId := userId,
          assignedAt := now, dueReturnAt := dueReturnAt, status := .active }
      let s1 := { s with assignments := s.assignments ++ [assignment] }
      (.granted newId, s1, [.setStateEv])
    else
      let waitlistEntry : WaitlistEntry :=
        { id := newId, resourceId := resourceId, userId := userId,
          requestedAt := now, priority := none }
      let s1 := { s with waitlist := s.waitlist ++ [waitlistEntry] }
      let position :=
        (s1.waitlist.filter (fun w => w.resourceId == resourceId)).length + 1
      let _delivered := notifyViaMcp o userId "waitlist position message" none
      (.queued position, s1, [.setStateEv, .notifyEv userId])

/-- Embeds `returnResource(resourceId, userId)`.  Environment inputs as in
`requestResource`.  Returns `none` when the source would throw: the
auto-assignment branch dereferences
`this.state.resources.find(...)!` with a non-null assertion, which faults if
a waitlist entry exists for a resource id absent from the catalog.

In the auto-assignment branch the source builds `nextState`, dispatches
`notifyViaMcp` (line 313), and only then commits with `setState` (line 316);
the event trace records that order. -/
def returnResource (o : McpOracle) (s : ResourceAllocationState)
    (resourceId userId : String) (newId : String) (now : Nat) :
    Option (ReturnResult × ResourceAllocationState × List Event) :=
  match s.assignments.find?
      (fun a => a.resourceId == resourceId && a.userId == userId &&
        a.status == AssignmentStatus.active) with
  | none => some (.noActiveAssignment, s, [])
  | some assignment =>
    let assignments := s.assignments.map
      (fun a => if a.id == assignment.id then { a with status := .returned } else a)
    let nextState0 := { s with assignments := assignments }
    match getNextWaitlistEntry s resourceId with
    | none => some (.returned none, nextState0, [.setStateEv])
    | some next =>
      match s.resources.find? (fun r => r.id == resourceId) with
      | none => none
      | some resource =>
        let newAssignment : Assignment :=
          { id := newId, resourceId := resourceId, userId := next.userId,
            assignedAt := now, dueReturnAt := none, status := .active }
        let msg := resource.name ++ " is now assigned to you."
        let nextState :=
          { nextState0 with
            assignments := nextState0.assignments ++ [newAssignment]
            waitlist := nextState0.waitlist.filter (fun w => w.id != next.id)
            notifications := appendNotification nextState0.notifications next.userId msg }
        let _delivered := notifyViaMcp o next.userId msg none
        some (.returned (some next.userId), nextState,
          [.notifyEv next.userId, .setStateEv])

/-- Embeds `listMyAssignments(userId)`: read-only query. -/
def listMyAssignments (s : ResourceAllocationState) (userId : String) :
    List Assignment :=
  s.assignments.filter
    (fun a => a.userId == userId && a.status == AssignmentStatus.active)

/-- Embeds `listResources(type?)`: read-only query; each resource annotated with
`available = quantity - activeAssignmentCount` (JavaScript subtraction can go
negative, hence `Int`). -/
def listResources (s : ResourceAllocationState) (type : Option ResourceType) :
    List (Resource × Int) :=
  let list : List Resource :=
    match type with
    | some t => s.resources.filter (fun r => r.type == t)
    | none => s.resources
  list.map (fun r => (r, (r.quantity : Int) - (activeAssignmentCount s r.id : Int)))

/-- One row of `getUtilization`: the stored entry fields plus the computed
`utilization` ratio (JavaScript number division, modelled in `ℚ`). -/
structure UtilizationRow where
  resourceId : String
  date : Nat
  allocated : Nat
  total : Nat
  utilization : ℚ
deriving DecidableEq

/-- Embeds `getUtilization(resourceId?, dateFrom?, dateTo?)`: read-only query.  Both
date bounds default to today; filtering is inclusive; `utilization` is
`allocated/total` guarded by `total > 0`, else `0`. -/
def getUtilization (s : ResourceAllocationState) (resourceId : Option String)
    (dateFrom dateTo : Option Nat) (now : Nat) : List UtilizationRow :=
  let from_ := dateFrom.getD (todayDate now)
  let to_ := dateTo.getD (todayDate now)
  let log := s.utilizationLog.filter
    (fun e =>
      (match resourceId with
       | some rid => e.resourceId == rid
       | none => true) && from_ ≤ e.date && e.date ≤ to_)
  log.map (fun e =>
    { resourceId := e.resourceId, date := e.date, allocated := e.allocated,
      total := e.total,
      utilization := if e.total > 0 then (e.allocated : ℚ) / (e.total : ℚ) else 0 })

/-- Embeds `clearNotifications(userId)`: `delete notifications[userId]`, then
`setState`. -/
def clearNotifications (s : ResourceAllocationState) (userId : String) :
    ResourceAllocationState :=
  { s with notifications := s.notifications.filter (fun p => p.1 != userId) }

/-- One step of the reminder loop of `checkReturnReminders`: skip assignments
that are not active, have no due date, or whose due date lies outside
`[now, now + 24h]`; otherwise append an in-app reminder and dispatch a
best-effort notification. -/
def reminderStep (o : McpOracle) (s : ResourceAllocationState)
    (now windowEnd : Nat)
    (acc : List (String × List String) × List Event) (a : Assignment) :
    List (String × List String) × List Event :=
  match a.status, a.dueReturnAt with
  | .active, some due =>
    if due > windowEnd || due < now then acc
    else
      let rname :=
        match s.resources.find? (fun r => r.id == a.resourceId) with
        | some r => r.name
        | none => a.resourceId
      let msg := "Reminder: Please return " ++ rname ++ " by the due date."
      let _delivered := notifyViaMcp o a.userId msg none
      (appendNotification acc.1 a.userId msg, acc.2 ++ [Event.notifyEv a.userId])
  | _, _ => acc

/-- One step of the snapshot loop of `checkReturnReminders`: push a
utilization entry for the resource unless one for `(r.id, date)` already
exists in the array being built (which already contains the entries pushed
for earlier resources). -/
def snapshotStep (s : ResourceAllocationState) (date : Nat)
    (log : List UtilizationLogEntry) (r : Resource) : List UtilizationLogEntry :=
  if log.any (fun e => e.resourceId == r.id && e.date == date) then log
  else log ++ [{ resourceId := r.id, date := date,
                 allocated := activeAssignmentCount s r.id, total := r.quantity }]

/-- Embeds `checkReturnReminders()`: environment inputs are the clock `now` and the
MCP transport.  Sends due-return reminders for active assignments due within
the next 24 hours, then records one utilization snapshot per resource for
today unless one already exists, and commits both with a single `setState`. -/
def checkReturnReminders (o : McpOracle) (s : ResourceAllocationState) (now : Nat) :
    ResourceAllocationState × List Event :=
  let windowEnd := now + REMINDER_HOURS_AHEAD * 60 * 60 * 1000
  let reminders := s.assignments.foldl (reminderStep o s now windowEnd)
    (s.notifications, [])
  let date := todayDate now
  let utilizationLog := s.resources.foldl (snapshotStep s date) s.utilizationLog
  ({ s with notifications := reminders.1, utilizationLog := utilizationLog },
    reminders.2 ++ [Event.setStateEv])

/-- Reachable states: the seeded initial state, closed under the mutating
operations `requestResource`, `returnResource` (when it does not fault),
`checkReturnReminders` and `clearNotifications`, for arbitrary environment
inputs.  The queries (`listMyAssignments`, `listResources`,
`getUtilization`) return without calling `setState` and so do not move the
state. -/
inductive Reachable : ResourceAllocationState → Prop
  | seed : Reachable (seedResourcesIfEmpty initialState)
  | request (o : McpOracle) (s : ResourceAllocationState)
      (resourceId userId : String) (dueReturnAt : Option Nat)
      (newId : String) (now : Nat) :
      Reachable s →
      Reachable (requestResource o s resourceId userId dueReturnAt newId now).2.1
  | ret (o : McpOracle) (s : ResourceAllocationState)
      (resourceId userId newId : String) (now : Nat)
      (out : ReturnResult × ResourceAllocationState × List Event) :
      Reachable s →
      returnResource o s resourceId userId newId now = some out →
      Reachable out.2.1
  | reminders (o : McpOracle) (s : ResourceAllocationState) (now : Nat) :
      Reachable s →
      Reachable (checkReturnReminders o s now).1
  | clear (s : ResourceAllocationState) (userId : String) :
      Reachable s →
      Reachable (clearNotifications s userId)

/-! ## Concrete fixtures

A transport with no MCP servers configured, and a small scenario on the
seeded catalog: `aliceHoldsP1` is the state after `alice` is granted `P1`
(quantity 1), `bobQueuedP1` additionally has `bob` on the waitlist for `P1`.
-/

/-- No MCP servers configured (the default deployment). -/
def noMcp : McpOracle :=
  { servers := [], connected := fun _ => false, callOk := fun _ => false }

/-- The state right after the first `onStart` seeding. -/
def seededState : ResourceAllocationState := seedResourcesIfEmpty initialState

/-- State after `requestResource("P1", "alice")` on the seeded state: granted. -/
def aliceHoldsP1 : ResourceAllocationState :=
  (requestResource noMcp seededState "P1" "alice" none "id-a" 100).2.1

/-- State after `requestResource("P1", "bob")` while alice holds `P1`: bob is waitlisted. -/
def bobQueuedP1 : ResourceAllocationState :=
  (requestResource noMcp aliceHoldsP1 "P1" "bob" none "id-b" 200).2.1

/-! ## C10: unknown resource requests fail without touching the state -/

/-- C10: for every state and every `resourceId` not present in the catalog,
`requestResource(resourceId, userId)` returns the `UnknownResource` failure
result and leaves the entire state unchanged: no assignment is created, no
waitlist entry is enqueued, and no notification is appended or dispatched
(the effect trace is empty). -/
theorem c10_unknown_resource_is_noop (o : McpOracle) (s : ResourceAllocationState)
    (resourceId userId : String) (dueReturnAt : Option Nat) (newId : String)
    (now : Nat) (h : ∀ r ∈ s.resources, r.id ≠ resourceId) :
    requestResource o s resourceId userId dueReturnAt newId now =
      (.unknownResource, s, []) := by
  have hfind : s.resources.find? (fun r => r.id == resourceId) = none := by
    rw [List.find?_eq_none]
    intro r hr
    simpa using h r hr
  simp [requestResource, hfind]

/-- Witness for C10: requesting the unknown id `"X"` on the seeded state is a
no-op failure. -/
theorem c10_witness :
    requestResource noMcp seededState "X" "alice" none "id-x" 7 =
      (.unknownResource, seededState, []) :=
  c10_unknown_resource_is_noop noMcp seededState "X" "alice" none "id-x" 7
    (by decide)

/-! ## C6: returning a resource one does not hold is a pure failure -/

/-- C6: for every state and user, `returnResource(resourceId, userId)` with
no active assignment matching that resource and user returns the
`NoActiveAssignment` failure result (not a raised fault: the call is `some`,
never the faulting `none`), and leaves the entire state — assignments,
waitlist, utilization log and notifications — unchanged, with no `setState`
and no notification dispatch (empty effect trace). -/
theorem c6_return_without_assignment_is_noop (o : McpOracle)
    (s : ResourceAllocationState) (resourceId userId newId : String) (now : Nat)
    (h : ∀ a ∈ s.assignments,
      ¬(a.resourceId = resourceId ∧ a.userId = userId ∧
        a.status = AssignmentStatus.active)) :
    returnResource o s resourceId userId newId now =
      some (.noActiveAssignment, s, []) := by
  have hfind : s.assignments.find?
      (fun a => a.resourceId == resourceId && a.userId == userId &&
        a.status == AssignmentStatus.active) = none := by
    rw [List.find?_eq_none]
    intro a ha
    have := h a ha
    simp only [Bool.and_eq_true, beq_iff_eq]
    tauto
  simp [returnResource, hfind]

/-- Witness for C6: `returnResource("X", "alice")` on the seeded state, where
alice holds nothing, fails without mutating anything. -/
theorem c6_witness :
    returnResource noMcp seededState "X" "alice" "id-z" 9 =
      some (.noActiveAssignment, seededState, []) :=
  c6_return_without_assignment_is_noop noMcp seededState "X" "alice" "id-z" 9
    (by decide)

/-! ## C1: the reported waitlist position is off by one

`requestResource` commits the state containing the new waitlist entry and
THEN computes `position = this.state.waitlist.filter(...).length + 1`.
Because `setState` is synchronous, the filter already counts the entry that
was just appended, so the returned position is the true 1-based position
plus one.  On the spec scenario — catalog `P1` with quantity 1, alice holds
it, `requestResource("P1","bob")` with an empty waitlist — the code answers
position 2 where the claim (and the spec scenario) require 1. -/

/-- C1, evaluation at the failing input: with the `P1` waitlist empty before
the call, `requestResource noMcp aliceHoldsP1 "P1" "bob"` enqueues bob as
the only waitlist entry yet returns `waitlistPosition = 2`; the claim
requires the 1-based position, which is 1. -/
theorem c1_position_off_by_one :
    aliceHoldsP1.waitlist.filter (fun w => w.resourceId == "P1") = [] ∧
    (requestResource noMcp aliceHoldsP1 "P1" "bob" none "id-b" 200).1 =
      .queued 2 ∧
    (requestResource noMcp aliceHoldsP1 "P1" "bob" none "id-b" 200).2.1.waitlist.filter
        (fun w => w.resourceId == "P1") =
      [{ id := "id-b", resourceId := "P1", userId := "bob", requestedAt := 200,
         priority := none }] := by
  refine ⟨by decide, by decide, by decide⟩

/-! ## C5: effect ordering of state commits and notification dispatches -/

/-- Does every notification dispatch in the trace come after some `setState`
commit?  This is the ordering property C5 asserts for the two notifying
branches. -/
def mutationBeforeNotify (evs : List Event) : Bool :=
  (evs.foldl
    (fun (acc : Bool × Bool) e =>
      match e with
      | .setStateEv => (acc.1, true)
      | .notifyEv _ => (acc.1 && acc.2, acc.2))
    (true, false)).1

/-- Counterexample to C5: in the auto-assignment branch of `returnResource`
the source dispatches `notifyViaMcp` (line 313) BEFORE committing the new
state with `setState` (line 316).  Concretely, with alice holding `P1` and
bob waitlisted, `returnResource("P1","alice")` auto-assigns bob with effect
trace `[notify bob, setState]`: the notification precedes the mutation, so
`mutationBeforeNotify` is false. -/
theorem c5_counterexample :
    (returnResource noMcp bobQueuedP1 "P1" "alice" "id-c" 300).map
        (fun out => (out.1, out.2.2)) =
      some (.returned (some "bob"),
        [Event.notifyEv "bob", Event.setStateEv]) ∧
    mutationBeforeNotify [Event.notifyEv "bob", Event.setStateEv] = false := by
  refine ⟨by decide, by decide⟩

/-- C5 as amended: in `requestResource` (waitlist branch included) every
notification dispatch happens after the `setState` commit, but in the
auto-assignment branch of `returnResource` the notification to the promoted
user is dispatched immediately BEFORE the single `setState` commit.  In both
operations the result and the committed state are independent of the MCP
transport behaviour (`notifyViaMcp` never throws and its result is
discarded), so neither operation's outcome depends on notification
delivery. -/
theorem c5_amended (o o2 : McpOracle) (s : ResourceAllocationState)
    (rid uid : String) (due : Option Nat) (nid : String) (now : Nat)
    (out : ReturnResult × ResourceAllocationState × List Event) (u : String)
    (hret : returnResource o s rid uid nid now = some out)
    (hauto : out.1 = .returned (some u)) :
    mutationBeforeNotify (requestResource o s rid uid due nid now).2.2 = true ∧
    out.2.2 = [Event.notifyEv u, Event.setStateEv] ∧
    requestResource o s rid uid due nid now =
      requestResource o2 s rid uid due nid now ∧
    returnResource o s rid uid nid now = returnResource o2 s rid uid nid now := by
  refine ⟨?_, ?_, rfl, rfl⟩
  · unfold requestResource
    cases hf : s.resources.find? (fun r => r.id == rid) with
    | none => simp [mutationBeforeNotify]
    | some r =>
      by_cases hlt : activeAssignmentCount s rid < r.quantity <;>
        simp [hlt, mutationBeforeNotify]
  · unfold returnResource at hret
    cases hfa : s.assignments.find?
        (fun a => a.resourceId == rid && a.userId == uid &&
          a.status == AssignmentStatus.active) with
    | none =>
      rw [hfa] at hret
      simp only [Option.some.injEq] at hret
      rw [← hret] at hauto
      exact absurd hauto (by simp)
    | some a0 =>
      rw [hfa] at hret
      cases hnx : getNextWaitlistEntry s rid with
      | none =>
        rw [hnx] at hret
        simp only [Option.some.injEq] at hret
        rw [← hret] at hauto
        exact absurd hauto (by simp)
      | some next =>
        rw [hnx] at hret
        cases hrf : s.resources.find? (fun r => r.id == rid) with
        | none => rw [hrf] at hret; exact absurd hret (by simp)
        | some r =>
          rw [hrf] at hret
          simp only [Option.some.injEq] at hret
          rw [← hret]
          rw [← hret] at hauto
          simp at hauto
          simp [hauto]

/-- Witness for C5 (amended): at the concrete auto-assignment of bob, the
`requestResource` trace commits before notifying, and the `returnResource`
trace is exactly `[notify bob, setState]`. -/
theorem c5_witness :
    mutationBeforeNotify
        (requestResource noMcp bobQueuedP1 "P1" "alice" none "id-c" 300).2.2 =
      true ∧
    ((returnResource noMcp bobQueuedP1 "P1" "alice" "id-c" 300).getD
        (.noActiveAssignment, initialState, [])).2.2 =
      [Event.notifyEv "bob", Event.setStateEv] := by
  have h := c5_amended noMcp noMcp bobQueuedP1 "P1" "alice" none "id-c" 300
    ((returnResource noMcp bobQueuedP1 "P1" "alice" "id-c" 300).getD
      (.noActiveAssignment, initialState, []))
    "bob" (by decide) (by decide)
  exact ⟨h.1, h.2.1⟩

/-! ## C9: no per-user deduplication in `requestResource` -/

/-- C9: `requestResource` performs no deduplication per user.  If the
resource exists with quantity 1 and the requesting user already holds an
active assignment for it, a second request by the same user is not granted
and does not fail: it appends a fresh waitlist entry for that user (queued
behind their own active assignment) and returns the queued result.  (The
returned position is the stored entry count plus two, per the off-by-one of
C1.) -/
theorem c9_no_dedup_same_user (o : McpOracle) (s : ResourceAllocationState)
    (resourceId userId : String) (dueReturnAt : Option Nat) (newId : String)
    (now : Nat) (r : Resource)
    (hfind : s.resources.find? (fun x => x.id == resourceId) = some r)
    (hq : r.quantity = 1)
    (hheld : ∃ a ∈ s.assignments,
      a.resourceId = resourceId ∧ a.userId = userId ∧
      a.status = AssignmentStatus.active) :
    requestResource o s resourceId userId dueReturnAt newId now =
      (.queued ((s.waitlist.filter (fun w => w.resourceId == resourceId)).length + 2),
       { s with waitlist := s.waitlist ++
          [{ id := newId, resourceId := resourceId, userId := userId,
             requestedAt := now, priority := none }] },
       [.setStateEv, .notifyEv userId]) := by
  obtain ⟨a, ha, h1, h2, h3⟩ := hheld
  have hmem : a ∈ s.assignments.filter
      (fun x => x.resourceId == resourceId && x.status == AssignmentStatus.active) :=
    List.mem_filter.mpr ⟨ha, by simp [h1, h3]⟩
  have hcount : 0 < activeAssignmentCount s resourceId := by
    have := List.length_pos.mpr (List.ne_nil_of_mem hmem)
    simpa [activeAssignmentCount] using this
  have hlt : ¬ activeAssignmentCount s resourceId < r.quantity := by omega
  simp only [requestResource, hfind, hlt, if_false]
  simp [List.filter_append]

/-- Witness for C9: alice already holds `P1` (quantity 1); her second request
queues her behind herself with a fresh waitlist entry. -/
theorem c9_witness :
    requestResource noMcp aliceHoldsP1 "P1" "alice" none "id-e" 250 =
      (.queued ((aliceHoldsP1.waitlist.filter
          (fun w => w.resourceId == "P1")).length + 2),
       { aliceHoldsP1 with waitlist := aliceHoldsP1.waitlist ++
          [{ id := "id-e", resourceId := "P1", userId := "alice",
             requestedAt := 250, priority := none }] },
       [.setStateEv, .notifyEv "alice"]) :=
  c9_no_dedup_same_user noMcp aliceHoldsP1 "P1" "alice" none "id-e" 250
    { id := "P1", type := .parking, name := "Parking Spot 1", quantity := 1,
      metadata := some [("location", "Lot A")] }
    (by decide) (by decide)
    ⟨{ id := "id-a", resourceId := "P1", userId := "alice", assignedAt := 100,
       dueReturnAt := none, status := .active }, by decide, by decide, by decide,
       by decide⟩

/-! ## C8: utilization math is guarded against division by zero -/

/-- C8: every row returned by `getUtilization` reports
`utilization = allocated/total` when `total > 0`, and `0` when `total = 0`;
the query is total (never a division-by-zero fault) for any stored entry. -/
theorem c8_utilization_math (s : ResourceAllocationState)
    (resourceId : Option String) (dateFrom dateTo : Option Nat) (now : Nat)
    (row : UtilizationRow)
    (h : row ∈ getUtilization s resourceId dateFrom dateTo now) :
    (0 < row.total →
      row.utilization = (row.allocated : ℚ) / (row.total : ℚ)) ∧
    (row.total = 0 → row.utilization = 0) := by
  unfold getUtilization at h
  obtain ⟨e, _he, rfl⟩ := List.mem_map.mp h
  refine ⟨fun hpos => ?_, fun hz => ?_⟩
  · simp only at hpos ⊢
    simp [hpos]
  · simp only at hz ⊢
    simp [hz]

/-- A state whose utilization log holds one entry with `total = 0`. -/
def zeroTotalState : ResourceAllocationState :=
  { initialState with utilizationLog :=
      [{ resourceId := "Z", date := 3, allocated := 0, total := 0 }] }

/-- The row `getUtilization` produces for that entry. -/
def zeroTotalRow : UtilizationRow :=
  { resourceId := "Z", date := 3, allocated := 0, total := 0, utilization := 0 }

/-- Witness for C8: at a stored entry with `total = 0` the query returns
utilization `0` instead of faulting. -/
theorem c8_witness :
    (0 < zeroTotalRow.total →
      zeroTotalRow.utilization =
        (zeroTotalRow.allocated : ℚ) / (zeroTotalRow.total : ℚ)) ∧
    (zeroTotalRow.total = 0 → zeroTotalRow.utilization = 0) :=
  c8_utilization_math zeroTotalState none none none (3 * MS_PER_DAY) zeroTotalRow
    (by rw [show getUtilization zeroTotalState none none none (3 * MS_PER_DAY) =
        [zeroTotalRow] from rfl]
        exact List.mem_singleton_self zeroTotalRow)

/-! ## Properties of `getNextWaitlistEntry` -/

/-- The entry `getNextWaitlistEntry` selects belongs to the waitlist entries
for the resource. -/
theorem getNextWaitlistEntry_mem_filter (s : ResourceAllocationState)
    (resourceId : String) (e : WaitlistEntry)
    (h : getNextWaitlistEntry s resourceId = some e) :
    e ∈ s.waitlist.filter (fun w => w.resourceId == resourceId) := by
  unfold getNextWaitlistEntry at h
  cases hs : List.insertionSort (fun a b => a.requestedAt ≤ b.requestedAt)
      (s.waitlist.filter (fun w => w.resourceId == resourceId)) with
  | nil => rw [hs] at h; simp at h
  | cons x xs =>
    rw [hs] at h
    simp only [List.head?_cons, Option.some.injEq] at h
    have hx : e ∈ List.insertionSort (fun a b => a.requestedAt ≤ b.requestedAt)
        (s.waitlist.filter (fun w => w.resourceId == resourceId)) := by
      rw [hs, ← h]; exact List.mem_cons_self x xs
    exact (List.perm_insertionSort _ _).mem_iff.mp hx

/-- The entry `getNextWaitlistEntry` selects has minimal `requestedAt` among
the waitlist entries for the resource. -/
theorem getNextWaitlistEntry_min (s : ResourceAllocationState)
    (resourceId : String) (e : WaitlistEntry)
    (h : getNextWaitlistEntry s resourceId = some e) :
    ∀ w ∈ s.waitlist, w.resourceId = resourceId →
      e.requestedAt ≤ w.requestedAt := by
  intro w hw hrid
  haveI : IsTotal WaitlistEntry (fun a b => a.requestedAt ≤ b.requestedAt) :=
    ⟨fun a b => Nat.le_total a.requestedAt b.requestedAt⟩
  haveI : IsTrans WaitlistEntry (fun a b => a.requestedAt ≤ b.requestedAt) :=
    ⟨fun _ _ _ h1 h2 => Nat.le_trans h1 h2⟩
  have hsorted := List.sorted_insertionSort
    (fun (a b : WaitlistEntry) => a.requestedAt ≤ b.requestedAt)
    (s.waitlist.filter (fun w => w.resourceId == resourceId))
  have hwf : w ∈ s.waitlist.filter (fun w => w.resourceId == resourceId) :=
    List.mem_filter.mpr ⟨hw, by simp [hrid]⟩
  have hws : w ∈ List.insertionSort (fun a b => a.requestedAt ≤ b.requestedAt)
      (s.waitlist.filter (fun w => w.resourceId == resourceId)) :=
    (List.perm_insertionSort _ _).mem_iff.mpr hwf
  unfold getNextWaitlistEntry at h
  cases hs : List.insertionSort (fun a b => a.requestedAt ≤ b.requestedAt)
      (s.waitlist.filter (fun w => w.resourceId == resourceId)) with
  | nil => rw [hs] at h; simp at h
  | cons x xs =>
    rw [hs] at h
    simp only [List.head?_cons, Option.some.injEq] at h
    rw [hs] at hws hsorted
    subst h
    rcases List.mem_cons.mp hws with hwx | hwxs
    · rw [hwx]
    · exact List.rel_of_sorted_cons hsorted w hwxs

/-- Lemma: `getNextWaitlistEntry` returns `none` exactly when the resource has no
waitlist entries. -/
theorem getNextWaitlistEntry_eq_none_iff (s : ResourceAllocationState)
    (resourceId : String) :
    getNextWaitlistEntry s resourceId = none ↔
      s.waitlist.filter (fun w => w.resourceId == resourceId) = [] := by
  unfold getNextWaitlistEntry
  constructor
  · intro h
    have hnil : List.insertionSort (fun a b => a.requestedAt ≤ b.requestedAt)
        (s.waitlist.filter (fun w => w.resourceId == resourceId)) = [] := by
      simpa using h
    have := List.perm_insertionSort
      (fun (a b : WaitlistEntry) => a.requestedAt ≤ b.requestedAt)
      (s.waitlist.filter (fun w => w.resourceId == resourceId))
    rw [hnil] at this
    exact this.symm.eq_nil
  · intro h
    rw [h]
    rfl

/-! ## C3: FIFO promotion on return -/

/-- C3: when a successful `returnResource` auto-assigns a waitlisted user
(distinct waitlist entry ids, as produced by `generateId()`), the promoted
entry `e` is the one `getNextWaitlistEntry` selects: it is a waitlist entry
of that resource with minimal `requestedAt` among the remaining entries for
the resource, exactly that entry is removed from the waitlist (every other
entry survives), and a new active assignment for `e.userId` on that resource
is appended.  Successive successful returns therefore promote entries with
request times `t1 < ... < tN` strictly in ascending order. -/
theorem c3_fifo_promotion (o : McpOracle) (s : ResourceAllocationState)
    (resourceId userId newId : String) (now : Nat)
    (out : ReturnResult × ResourceAllocationState × List Event)
    (u : String) (e : WaitlistEntry)
    (hnodup : (s.waitlist.map (fun w => w.id)).Nodup)
    (hret : returnResource o s resourceId userId newId now = some out)
    (hauto : out.1 = .returned (some u))
    (hnext : getNextWaitlistEntry s resourceId = some e) :
    u = e.userId ∧
    e ∈ s.waitlist ∧
    e.resourceId = resourceId ∧
    (∀ w ∈ s.waitlist, w.resourceId = resourceId →
      e.requestedAt ≤ w.requestedAt) ∧
    out.2.1.waitlist = s.waitlist.filter (fun w => w.id != e.id) ∧
    (∀ w ∈ s.waitlist, (w ∈ out.2.1.waitlist ↔ w ≠ e)) ∧
    out.2.1.assignments.getLast? = some
      { id := newId, resourceId := resourceId, userId := e.userId,
        assignedAt := now, dueReturnAt := none, status := .active } := by
  have hmemf := getNextWaitlistEntry_mem_filter s resourceId e hnext
  have hmem : e ∈ s.waitlist := (List.mem_filter.mp hmemf).1
  have hrid : e.resourceId = resourceId := by
    have := (List.mem_filter.mp hmemf).2
    simpa using this
  unfold returnResource at hret
  cases hfa : s.assignments.find?
      (fun a => a.resourceId == resourceId && a.userId == userId &&
        a.status == AssignmentStatus.active) with
  | none =>
    rw [hfa] at hret
    simp only [Option.some.injEq] at hret
    rw [← hret] at hauto
    exact absurd hauto (by simp)
  | some a0 =>
    rw [hfa, hnext] at hret
    cases hrf : s.resources.find? (fun r => r.id == resourceId) with
    | none => rw [hrf] at hret; exact absurd hret (by simp)
    | some r =>
      rw [hrf] at hret
      simp only [Option.some.injEq] at hret
      have hu : u = e.userId := by
        rw [← hret] at hauto
        simpa using hauto.symm
      refine ⟨hu, hmem, hrid,
        getNextWaitlistEntry_min s resourceId e hnext, ?_, ?_, ?_⟩
      · rw [← hret]
      · intro w hw
        rw [← hret]
        simp only [List.mem_filter]
        constructor
        · rintro ⟨-, hne⟩ rfl
          simp at hne
        · intro hne
          refine ⟨hw, ?_⟩
          have : w.id ≠ e.id := fun hid =>
            hne (List.inj_on_of_nodup_map hnodup hw hmem hid)
          simpa using this
      · rw [← hret]
        simp

/-- The concrete output of `returnResource("P1","alice")` on `bobQueuedP1`
(the call succeeds, so the default of `getD` is never used). -/
def bobPromotedOut : ReturnResult × ResourceAllocationState × List Event :=
  (returnResource noMcp bobQueuedP1 "P1" "alice" "id-c" 300).getD
    (.noActiveAssignment, initialState, [])

/-- The waitlist entry created for bob in `bobQueuedP1`. -/
def bobEntry : WaitlistEntry :=
  { id := "id-b", resourceId := "P1", userId := "bob", requestedAt := 200,
    priority := none }

/-- Witness for C3: returning `P1` promotes bob — the auto-assigned user is
the user of the selected minimal entry, and exactly that entry (id `id-b`)
is removed from the waitlist. -/
theorem c3_witness :
    "bob" = bobEntry.userId ∧
    bobPromotedOut.2.1.waitlist =
      bobQueuedP1.waitlist.filter (fun w => w.id != bobEntry.id) := by
  have h := c3_fifo_promotion noMcp bobQueuedP1 "P1" "alice" "id-c" 300
    bobPromotedOut "bob" bobEntry
    (by decide) (by decide) (by decide) (by decide)
  exact ⟨h.1, h.2.2.2.2.1⟩

/-! ## Counting active assignments -/

/-- Active-assignment count on a raw assignment list (the body of
`activeAssignmentCount`). -/
def activeCountL (l : List Assignment) (resourceId : String) : Nat :=
  (l.filter
    (fun a => a.resourceId == resourceId && a.status == AssignmentStatus.active)).length

theorem activeAssignmentCount_eq (s : ResourceAllocationState) (resourceId : String) :
    activeAssignmentCount s resourceId = activeCountL s.assignments resourceId := rfl

theorem activeCountL_cons (a : Assignment) (t : List Assignment) (rid : String) :
    activeCountL (a :: t) rid =
      (if a.resourceId == rid && a.status == AssignmentStatus.active then 1 else 0) +
        activeCountL t rid := by
  by_cases h : (a.resourceId == rid && a.status == AssignmentStatus.active) = true
  · simp [activeCountL, List.filter_cons, h, Nat.add_comm]
  · simp [activeCountL, List.filter_cons, h]

theorem activeCountL_append (l1 l2 : List Assignment) (rid : String) :
    activeCountL (l1 ++ l2) rid = activeCountL l1 rid + activeCountL l2 rid := by
  simp [activeCountL, List.filter_append]

/-- Marking the assignments with a given id as returned never increases the
active count for any resource. -/
theorem activeCountL_flip_le (l : List Assignment) (targetId rid : String) :
    activeCountL
      (l.map (fun a =>
        if a.id == targetId then { a with status := AssignmentStatus.returned }
        else a)) rid ≤ activeCountL l rid := by
  induction l with
  | nil => simp [activeCountL]
  | cons a t ih =>
    rw [List.map_cons, activeCountL_cons, activeCountL_cons]
    have hcontrib :
        (if (if a.id == targetId then { a with status := AssignmentStatus.returned }
            else a).resourceId == rid &&
          (if a.id == targetId then { a with status := AssignmentStatus.returned }
            else a).status == AssignmentStatus.active then 1 else 0) ≤
        (if a.resourceId == rid && a.status == AssignmentStatus.active
          then 1 else 0) := by
      by_cases hid : (a.id == targetId) = true
      · simp [hid]
      · simp [hid]
    omega

/-- Marking the assignments with a given id as returned, when some active
assignment for the resource has that id, loses at least one active
assignment for the resource. -/
theorem activeCountL_flip_lt (l : List Assignment) (targetId rid : String)
    (a0 : Assignment) (hmem : a0 ∈ l) (hid : a0.id = targetId)
    (hrid : a0.resourceId = rid) (hact : a0.status = AssignmentStatus.active) :
    activeCountL
      (l.map (fun a =>
        if a.id == targetId then { a with status := AssignmentStatus.returned }
        else a)) rid + 1 ≤ activeCountL l rid := by
  induction l with
  | nil => cases hmem
  | cons a t ih =>
    rw [List.map_cons, activeCountL_cons, activeCountL_cons]
    rcases List.mem_cons.mp hmem with rfl | hmem'
    · have h1 : (a0.id == targetId) = true := by simp [hid]
      have h3 := activeCountL_flip_le t targetId rid
      have hflip :
          (if (if a0.id == targetId then { a0 with status := AssignmentStatus.returned }
              else a0).resourceId == rid &&
            (if a0.id == targetId then { a0 with status := AssignmentStatus.returned }
              else a0).status == AssignmentStatus.active then 1 else 0) = 0 := by
        simp [h1]
      have horig :
          (if a0.resourceId == rid && a0.status == AssignmentStatus.active
            then 1 else 0) = 1 := by
        simp [hrid, hact]
      rw [hflip, horig]
      omega
    · have h3 := ih hmem'
      have hcontrib :
          (if (if a.id == targetId then { a with status := AssignmentStatus.returned }
              else a).resourceId == rid &&
            (if a.id == targetId then { a with status := AssignmentStatus.returned }
              else a).status == AssignmentStatus.active then 1 else 0) ≤
          (if a.resourceId == rid && a.status == AssignmentStatus.active
            then 1 else 0) := by
        by_cases hidb : (a.id == targetId) = true
        · simp [hidb]
        · simp [hidb]
      omega

/-- With pairwise-distinct assignment ids, marking the assignments with the
id of an active assignment `a0` for the resource as returned removes exactly
one active assignment for the resource. -/
theorem activeCountL_flip_eq (l : List Assignment) (targetId rid : String)
    (a0 : Assignment) (hmem : a0 ∈ l) (hid : a0.id = targetId)
    (hrid : a0.resourceId = rid) (hact : a0.status = AssignmentStatus.active)
    (hnodup : (l.map (fun a => a.id)).Nodup) :
    activeCountL
      (l.map (fun a =>
        if a.id == targetId then { a with status := AssignmentStatus.returned }
        else a)) rid + 1 = activeCountL l rid := by
  induction l with
  | nil => cases hmem
  | cons a t ih =>
    rw [List.map_cons] at hnodup
    have hnd := List.nodup_cons.mp hnodup
    rw [List.map_cons, activeCountL_cons, activeCountL_cons]
    rcases List.mem_cons.mp hmem with rfl | hmem'
    · have h1 : (a0.id == targetId) = true := by simp [hid]
      have hrest : t.map (fun a =>
          if a.id == targetId then { a with status := AssignmentStatus.returned }
          else a) = t := by
        have hfix : ∀ b ∈ t, (if b.id == targetId then
            { b with status := AssignmentStatus.returned } else b) = b := by
          intro b hb
          have hne : b.id ≠ targetId := by
            intro hbid
            exact hnd.1 (by rw [hid, ← hbid]; exact List.mem_map_of_mem _ hb)
          simp [hne]
        have := List.map_congr_left hfix
        simpa using this
      have hflip :
          (if (if a0.id == targetId then { a0 with status := AssignmentStatus.returned }
              else a0).resourceId == rid &&
            (if a0.id == targetId then { a0 with status := AssignmentStatus.returned }
              else a0).status == AssignmentStatus.active then 1 else 0) = 0 := by
        simp [h1]
      have horig :
          (if a0.resourceId == rid && a0.status == AssignmentStatus.active
            then 1 else 0) = 1 := by
        simp [hrid, hact]
      rw [hflip, horig, hrest]
      omega
    · have haid : (a.id == targetId) = false := by
        have : a.id ≠ targetId := by
          intro haeq
          exact hnd.1 (by rw [haeq, ← hid]; exact List.mem_map_of_mem _ hmem')
        simpa using this
      rw [haid]
      simp only [Bool.false_eq_true, if_false]
      have := ih hmem' hnd.2
      omega

/-! ## C4: a return never leaves capacity idle while the queue is nonempty -/

/-- C4: for every state with pairwise-distinct assignment ids (as produced
by `generateId()`), a successful `returnResource(R, userId)` leaves no spare
capacity unassigned: when a waitlist entry for `R` exists the active count
for `R` after the operation equals its value before (the freed unit is
reassigned within the same operation), and when the waitlist for `R` is
empty the active count decreases by exactly one. -/
theorem c4_no_idle_with_queue (o : McpOracle) (s : ResourceAllocationState)
    (resourceId userId newId : String) (now : Nat)
    (out : ReturnResult × ResourceAllocationState × List Event)
    (hnodup : (s.assignments.map (fun a => a.id)).Nodup)
    (hret : returnResource o s resourceId userId newId now = some out)
    (hok : out.1 ≠ .noActiveAssignment) :
    (s.waitlist.filter (fun w => w.resourceId == resourceId) ≠ [] →
      activeAssignmentCount out.2.1 resourceId =
        activeAssignmentCount s resourceId) ∧
    (s.waitlist.filter (fun w => w.resourceId == resourceId) = [] →
      activeAssignmentCount out.2.1 resourceId + 1 =
        activeAssignmentCount s resourceId) := by
  unfold returnResource at hret
  cases hfa : s.assignments.find?
      (fun a => a.resourceId == resourceId && a.userId == userId &&
        a.status == AssignmentStatus.active) with
  | none =>
    rw [hfa] at hret
    simp only [Option.some.injEq] at hret
    rw [← hret] at hok
    simp at hok
  | some a0 =>
    rw [hfa] at hret
    have hmem : a0 ∈ s.assignments := List.mem_of_find?_eq_some hfa
    have hpred := List.find?_some hfa
    simp only [Bool.and_eq_true, beq_iff_eq] at hpred
    have hflip := activeCountL_flip_eq s.assignments a0.id resourceId a0 hmem rfl
      hpred.1.1 hpred.2 hnodup
    cases hnx : getNextWaitlistEntry s resourceId with
    | none =>
      rw [hnx] at hret
      simp only [Option.some.injEq] at hret
      have hempty := (getNextWaitlistEntry_eq_none_iff s resourceId).mp hnx
      constructor
      · intro hne; exact absurd hempty hne
      · intro _
        rw [← hret]
        simpa [activeAssignmentCount_eq, activeCountL] using hflip
    | some next =>
      rw [hnx] at hret
      have hnonempty : s.waitlist.filter (fun w => w.resourceId == resourceId) ≠ [] := by
        intro hempty
        rw [(getNextWaitlistEntry_eq_none_iff s resourceId).mpr hempty] at hnx
        cases hnx
      cases hrf : s.resources.find? (fun r => r.id == resourceId) with
      | none => rw [hrf] at hret; exact absurd hret (by simp)
      | some r =>
        rw [hrf] at hret
        simp only [Option.some.injEq] at hret
        constructor
        · intro _
          rw [← hret]
          show activeCountL (s.assignments.map (fun a =>
              if a.id == a0.id then { a with status := AssignmentStatus.returned }
              else a) ++
              [{ id := newId, resourceId := resourceId, userId := next.userId,
                 assignedAt := now, dueReturnAt := none,
                 status := AssignmentStatus.active }]) resourceId =
            activeCountL s.assignments resourceId
          rw [activeCountL_append]
          have hnew : activeCountL
              [{ id := newId, resourceId := resourceId, userId := next.userId,
                 assignedAt := now, dueReturnAt := none,
                 status := AssignmentStatus.active }] resourceId = 1 := by
            simp [activeCountL]
          rw [hnew]
          omega
        · intro hempty; exact absurd hempty hnonempty

/-- Witness for C4: returning `P1` with bob waitlisted keeps the active
count for `P1` unchanged (the freed unit is handed to bob in the same
operation). -/
theorem c4_witness :
    activeAssignmentCount bobPromotedOut.2.1 "P1" =
      activeAssignmentCount bobQueuedP1 "P1" :=
  (c4_no_idle_with_queue noMcp bobQueuedP1 "P1" "alice" "id-c" 300
    bobPromotedOut (by decide) (by decide) (by decide)).1 (by decide)

/-! ## The daily utilization snapshot fold -/

theorem checkReturnReminders_utilizationLog (o : McpOracle)
    (s : ResourceAllocationState) (now : Nat) :
    (checkReturnReminders o s now).1.utilizationLog =
      s.resources.foldl (snapshotStep s (todayDate now)) s.utilizationLog := rfl

theorem checkReturnReminders_resources (o : McpOracle)
    (s : ResourceAllocationState) (now : Nat) :
    (checkReturnReminders o s now).1.resources = s.resources := rfl


/-- The entry the snapshot loop would push for resource `r` on day `d`. -/
def snapshotEntry (s : ResourceAllocationState) (d : Nat) (r : Resource) :
    UtilizationLogEntry :=
  { resourceId := r.id, date := d,
    allocated := activeAssignmentCount s r.id, total := r.quantity }

theorem snapshotStep_skip (s : ResourceAllocationState) (d : Nat)
    (log : List UtilizationLogEntry) (r : Resource)
    (h : (log.any (fun e => e.resourceId == r.id && e.date == d)) = true) :
    snapshotStep s d log r = log := by
  simp [snapshotStep, h]

theorem snapshotStep_push (s : ResourceAllocationState) (d : Nat)
    (log : List UtilizationLogEntry) (r : Resource)
    (h : ¬ (log.any (fun e => e.resourceId == r.id && e.date == d)) = true) :
    snapshotStep s d log r = log ++ [snapshotEntry s d r] := by
  simp [snapshotStep, snapshotEntry, h]

/-- The snapshot loop only appends entries: the old log is a prefix. -/
theorem snapshotFold_append_only (s : ResourceAllocationState) (d : Nat)
    (rs : List Resource) (log : List UtilizationLogEntry) :
    ∃ t, rs.foldl (snapshotStep s d) log = log ++ t := by
  induction rs generalizing log with
  | nil => exact ⟨[], by simp⟩
  | cons r rest ih =>
    rw [List.foldl_cons]
    by_cases h : (log.any (fun e => e.resourceId == r.id && e.date == d)) = true
    · rw [snapshotStep_skip s d log r h]
      exact ih log
    · rw [snapshotStep_push s d log r h]
      obtain ⟨t, ht⟩ := ih (log ++ [snapshotEntry s d r])
      exact ⟨[snapshotEntry s d r] ++ t, by rw [ht, List.append_assoc]⟩

/-- Once the log has an entry for `(id, d)`, the snapshot loop keeps it. -/
theorem snapshotFold_any_mono (s : ResourceAllocationState) (d : Nat)
    (rs : List Resource) (log : List UtilizationLogEntry) (id : String)
    (h : log.any (fun e => e.resourceId == id && e.date == d) = true) :
    (rs.foldl (snapshotStep s d) log).any
      (fun e => e.resourceId == id && e.date == d) = true := by
  obtain ⟨t, ht⟩ := snapshotFold_append_only s d rs log
  rw [ht, List.any_append, h]
  rfl

/-- After the snapshot loop, every processed resource has an entry for
`(r.id, d)` in the log. -/
theorem snapshotFold_present (s : ResourceAllocationState) (d : Nat)
    (rs : List Resource) (log : List UtilizationLogEntry) (r : Resource)
    (hmem : r ∈ rs) :
    (rs.foldl (snapshotStep s d) log).any
      (fun e => e.resourceId == r.id && e.date == d) = true := by
  induction rs generalizing log with
  | nil => cases hmem
  | cons a rest ih =>
    rw [List.foldl_cons]
    rcases List.mem_cons.mp hmem with rfl | hmem'
    · have hstep : (snapshotStep s d log r).any
          (fun e => e.resourceId == r.id && e.date == d) = true := by
        by_cases h : (log.any (fun e => e.resourceId == r.id && e.date == d)) = true
        · rw [snapshotStep_skip s d log r h]
          exact h
        · rw [snapshotStep_push s d log r h, List.any_append]
          simp [snapshotEntry]
      exact snapshotFold_any_mono s d rest _ r.id hstep
    · exact ih _ hmem'

/-- The snapshot loop never creates a second entry for the same `(id, d)`
pair: if the incoming log has at most one, so does the outgoing log. -/
theorem snapshotFold_le_one (s : ResourceAllocationState) (d : Nat)
    (rs : List Resource) (log : List UtilizationLogEntry) (id : String)
    (h : (log.filter (fun e => e.resourceId == id && e.date == d)).length ≤ 1) :
    ((rs.foldl (snapshotStep s d) log).filter
      (fun e => e.resourceId == id && e.date == d)).length ≤ 1 := by
  induction rs generalizing log with
  | nil => exact h
  | cons r rest ih =>
    rw [List.foldl_cons]
    by_cases hany : (log.any (fun e => e.resourceId == r.id && e.date == d)) = true
    · rw [snapshotStep_skip s d log r hany]
      exact ih log h
    · rw [snapshotStep_push s d log r hany]
      refine ih _ ?_
      rw [List.filter_append, List.length_append]
      by_cases hid : (r.id == id) = true
      · have hideq : r.id = id := beq_iff_eq.mp hid
        subst hideq
        have hany' : log.any (fun e => e.resourceId == r.id && e.date == d) = false := by
          simpa using hany
        have hzero : (log.filter
            (fun e => e.resourceId == r.id && e.date == d)).length = 0 := by
          rw [List.length_eq_zero, List.filter_eq_nil_iff]
          exact List.any_eq_false.mp hany'
        have hone : (List.filter (fun e => e.resourceId == r.id && e.date == d)
            [snapshotEntry s d r]).length = 1 := by
          simp [snapshotEntry]
        omega
      · have hnone : (List.filter (fun e => e.resourceId == id && e.date == d)
            [snapshotEntry s d r]).length = 0 := by
          simp [snapshotEntry, List.filter_cons, hid]
        omega

/-- If every resource already has an entry for `(r.id, d)`, the snapshot
loop is the identity. -/
theorem snapshotFold_noop (s : ResourceAllocationState) (d : Nat)
    (rs : List Resource) (log : List UtilizationLogEntry)
    (h : ∀ r ∈ rs, log.any (fun e => e.resourceId == r.id && e.date == d) = true) :
    rs.foldl (snapshotStep s d) log = log := by
  induction rs generalizing log with
  | nil => rfl
  | cons r rest ih =>
    rw [List.foldl_cons, snapshotStep_skip s d log r (h r (List.mem_cons_self r rest))]
    exact ih log (fun a ha => h a (List.mem_cons_of_mem r ha))

/-! ## C7: the daily snapshot is idempotent per calendar date -/

/-- C7: `checkReturnReminders` is idempotent per calendar date with respect
to the utilization log.  Starting from a state with no entry yet for today
(`d = todayDate now`), one invocation writes exactly one entry per resource
for `d`; a second invocation on the same date leaves the log exactly as it
was; and no existing entry is ever updated — the old log survives verbatim
as a prefix. -/
theorem c7_idempotent_snapshot (o o2 : McpOracle) (s : ResourceAllocationState)
    (now now2 : Nat) (hd : todayDate now2 = todayDate now)
    (hfresh : ∀ e ∈ s.utilizationLog, e.date ≠ todayDate now) :
    (∀ r ∈ s.resources,
      ((checkReturnReminders o s now).1.utilizationLog.filter
        (fun e => e.resourceId == r.id && e.date == todayDate now)).length = 1) ∧
    (checkReturnReminders o2 (checkReturnReminders o s now).1 now2).1.utilizationLog =
      (checkReturnReminders o s now).1.utilizationLog ∧
    (∃ t, (checkReturnReminders o s now).1.utilizationLog =
      s.utilizationLog ++ t) := by
  have hlog1 := checkReturnReminders_utilizationLog o s now
  refine ⟨?_, ?_, ?_⟩
  · intro r hr
    rw [hlog1]
    have hzero : (s.utilizationLog.filter
        (fun e => e.resourceId == r.id && e.date == todayDate now)).length = 0 := by
      rw [List.length_eq_zero, List.filter_eq_nil_iff]
      intro e he hpred
      simp only [Bool.and_eq_true, beq_iff_eq] at hpred
      exact hfresh e he hpred.2
    have hle := snapshotFold_le_one s (todayDate now) s.resources
      s.utilizationLog r.id (by omega)
    have hany := snapshotFold_present s (todayDate now) s.resources
      s.utilizationLog r hr
    have hpos : 0 < ((s.resources.foldl (snapshotStep s (todayDate now))
        s.utilizationLog).filter
        (fun e => e.resourceId == r.id && e.date == todayDate now)).length := by
      obtain ⟨e, he, hpe⟩ := List.any_eq_true.mp hany
      exact List.length_pos.mpr (List.ne_nil_of_mem (List.mem_filter.mpr ⟨he, hpe⟩))
    omega
  · rw [checkReturnReminders_utilizationLog o2 (checkReturnReminders o s now).1 now2,
      checkReturnReminders_resources o s now, hd, hlog1]
    refine snapshotFold_noop (checkReturnReminders o s now).1 (todayDate now)
      s.resources _ ?_
    intro r hr
    exact snapshotFold_present s (todayDate now) s.resources s.utilizationLog r hr
  · rw [hlog1]
    exact snapshotFold_append_only s (todayDate now) s.resources s.utilizationLog

/-- Witness for C7: a second sweep on the same day (different clock values
within day 3) leaves the utilization log of the first sweep untouched. -/
theorem c7_witness :
    (checkReturnReminders noMcp
        (checkReturnReminders noMcp bobQueuedP1 259200005).1 259200009).1.utilizationLog =
      (checkReturnReminders noMcp bobQueuedP1 259200005).1.utilizationLog :=
  (c7_idempotent_snapshot noMcp noMcp bobQueuedP1 259200005 259200009
    (by decide) (by decide)).2.1

/-! ## C2: the capacity invariant over all reachable states -/

theorem requestResource_resources (o : McpOracle) (s : ResourceAllocationState)
    (rid uid : String) (due : Option Nat) (nid : String) (now : Nat) :
    (requestResource o s rid uid due nid now).2.1.resources = s.resources := by
  unfold requestResource
  cases hf : s.resources.find? (fun r => r.id == rid) with
  | none => rfl
  | some r =>
    by_cases hlt : activeAssignmentCount s rid < r.quantity <;> simp [hlt]

theorem returnResource_resources (o : McpOracle) (s : ResourceAllocationState)
    (rid uid nid : String) (now : Nat)
    (out : ReturnResult × ResourceAllocationState × List Event)
    (hret : returnResource o s rid uid nid now = some out) :
    out.2.1.resources = s.resources := by
  unfold returnResource at hret
  cases hfa : s.assignments.find?
      (fun a => a.resourceId == rid && a.userId == uid &&
        a.status == AssignmentStatus.active) with
  | none =>
    rw [hfa] at hret
    simp only [Option.some.injEq] at hret
    rw [← hret]
  | some a0 =>
    rw [hfa] at hret
    cases hnx : getNextWaitlistEntry s rid with
    | none =>
      rw [hnx] at hret
      simp only [Option.some.injEq] at hret
      rw [← hret]
    | some next =>
      rw [hnx] at hret
      cases hrf : s.resources.find? (fun r => r.id == rid) with
      | none => rw [hrf] at hret; exact absurd hret (by simp)
      | some r =>
        rw [hrf] at hret
        simp only [Option.some.injEq] at hret
        rw [← hret]

/-- A successful `returnResource` never increases the active count of any
resource: the found active assignment is flipped to returned, and at most
one new active assignment is created in its place. -/
theorem returnResource_count_le (o : McpOracle) (s : ResourceAllocationState)
    (rid uid nid : String) (now : Nat)
    (out : ReturnResult × ResourceAllocationState × List Event)
    (hret : returnResource o s rid uid nid now = some out) (x : String) :
    activeAssignmentCount out.2.1 x ≤ activeAssignmentCount s x := by
  unfold returnResource at hret
  cases hfa : s.assignments.find?
      (fun a => a.resourceId == rid && a.userId == uid &&
        a.status == AssignmentStatus.active) with
  | none =>
    rw [hfa] at hret
    simp only [Option.some.injEq] at hret
    rw [← hret]
  | some a0 =>
    rw [hfa] at hret
    have hmem : a0 ∈ s.assignments := List.mem_of_find?_eq_some hfa
    have hpred := List.find?_some hfa
    simp only [Bool.and_eq_true, beq_iff_eq] at hpred
    cases hnx : getNextWaitlistEntry s rid with
    | none =>
      rw [hnx] at hret
      simp only [Option.some.injEq] at hret
      rw [← hret]
      show activeCountL (s.assignments.map (fun a =>
          if a.id == a0.id then { a with status := AssignmentStatus.returned }
          else a)) x ≤ activeCountL s.assignments x
      exact activeCountL_flip_le s.assignments a0.id x
    | some next =>
      rw [hnx] at hret
      cases hrf : s.resources.find? (fun r => r.id == rid) with
      | none => rw [hrf] at hret; exact absurd hret (by simp)
      | some r =>
        rw [hrf] at hret
        simp only [Option.some.injEq] at hret
        rw [← hret]
        show activeCountL (s.assignments.map (fun a =>
            if a.id == a0.id then { a with status := AssignmentStatus.returned }
            else a) ++
            [{ id := nid, resourceId := rid, userId := next.userId,
               assignedAt := now, dueReturnAt := none,
               status := AssignmentStatus.active }]) x ≤
          activeCountL s.assignments x
        rw [activeCountL_append]
        by_cases hx : (rid == x) = true
        · have hxeq : rid = x := beq_iff_eq.mp hx
          have hlt := activeCountL_flip_lt s.assignments a0.id x a0 hmem rfl
            (by rw [hpred.1.1, hxeq]) hpred.2
          have hone : activeCountL
              [{ id := nid, resourceId := rid, userId := next.userId,
                 assignedAt := now, dueReturnAt := none,
                 status := AssignmentStatus.active }] x = 1 := by
            simp [activeCountL, hx]
          omega
        · have hzero : activeCountL
              [{ id := nid, resourceId := rid, userId := next.userId,
                 assignedAt := now, dueReturnAt := none,
                 status := AssignmentStatus.active }] x = 0 := by
            simp [activeCountL, List.filter_cons, hx]
          have hle := activeCountL_flip_le s.assignments a0.id x
          omega

/-- Lemma: `requestResource` preserves the capacity invariant, provided resource
ids are unique in the catalog (true of the seeded catalog): a unit is only
granted after the `activeCount < quantity` check, and the waitlist branch
does not touch assignments. -/
theorem inv_requestResource (o : McpOracle) (s : ResourceAllocationState)
    (rid uid : String) (due : Option Nat) (nid : String) (now : Nat)
    (hu : ∀ r1 ∈ s.resources, ∀ r2 ∈ s.resources, r1.id = r2.id → r1 = r2)
    (hinv : ∀ r ∈ s.resources, activeAssignmentCount s r.id ≤ r.quantity) :
    ∀ r ∈ (requestResource o s rid uid due nid now).2.1.resources,
      activeAssignmentCount (requestResource o s rid uid due nid now).2.1 r.id ≤
        r.quantity := by
  intro r hr
  rw [requestResource_resources] at hr
  unfold requestResource
  cases hf : s.resources.find? (fun x => x.id == rid) with
  | none => exact hinv r hr
  | some r0 =>
    have hr0mem : r0 ∈ s.resources := List.mem_of_find?_eq_some hf
    have hr0id : r0.id = rid := by
      have := List.find?_some hf
      simpa using this
    by_cases hlt : activeAssignmentCount s rid < r0.quantity
    · simp only [hlt, if_true]
      show activeCountL (s.assignments ++
          [{ id := nid, resourceId := rid, userId := uid,
             assignedAt := now, dueReturnAt := due,
             status := AssignmentStatus.active }]) r.id ≤ r.quantity
      rw [activeCountL_append]
      by_cases hx : (rid == r.id) = true
      · have hxeq : rid = r.id := beq_iff_eq.mp hx
        have hre : r = r0 := hu r hr r0 hr0mem (by rw [← hxeq, hr0id])
        have hone : activeCountL
            [{ id := nid, resourceId := rid, userId := uid,
               assignedAt := now, dueReturnAt := due,
               status := AssignmentStatus.active }] r.id = 1 := by
          simp [activeCountL, hx]
        have hcount : activeCountL s.assignments r.id =
            activeAssignmentCount s rid := by
          rw [activeAssignmentCount_eq, hxeq]
        rw [hone, hcount, hre]
        omega
      · have hzero : activeCountL
            [{ id := nid, resourceId := rid, userId := uid,
               assignedAt := now, dueReturnAt := due,
               status := AssignmentStatus.active }] r.id = 0 := by
          simp [activeCountL, List.filter_cons, hx]
        rw [hzero]
        have := hinv r hr
        rw [activeAssignmentCount_eq] at this
        omega
    · simp only [hlt, if_false]
      exact hinv r hr

/-- The ids of the seeded catalog are pairwise distinct. -/
theorem DEFAULT_RESOURCES_id_unique :
    ∀ r1 ∈ DEFAULT_RESOURCES, ∀ r2 ∈ DEFAULT_RESOURCES, r1.id = r2.id → r1 = r2 := by
  decide

/-- Every reachable state still carries the seeded catalog and satisfies the
capacity invariant. -/
theorem reachable_inv (s : ResourceAllocationState) (h : Reachable s) :
    s.resources = DEFAULT_RESOURCES ∧
    ∀ r ∈ s.resources, activeAssignmentCount s r.id ≤ r.quantity := by
  induction h with
  | seed => exact ⟨by decide, by decide⟩
  | request o s' rid uid due nid now _hs ih =>
    refine ⟨by rw [requestResource_resources]; exact ih.1, ?_⟩
    refine inv_requestResource o s' rid uid due nid now ?_ ih.2
    rw [ih.1]
    exact DEFAULT_RESOURCES_id_unique
  | ret o s' rid uid nid now out _hs hret ih =>
    refine ⟨by rw [returnResource_resources o s' rid uid nid now out hret]; exact ih.1, ?_⟩
    intro r hr
    rw [returnResource_resources o s' rid uid nid now out hret] at hr
    exact Nat.le_trans (returnResource_count_le o s' rid uid nid now out hret r.id)
      (ih.2 r hr)
  | reminders o s' now _hs ih =>
    refine ⟨by rw [checkReturnReminders_resources]; exact ih.1, ?_⟩
    intro r hr
    rw [checkReturnReminders_resources] at hr
    have heq : activeAssignmentCount (checkReturnReminders o s' now).1 r.id =
        activeAssignmentCount s' r.id := rfl
    rw [heq]
    exact ih.2 r hr
  | clear s' uid _hs ih =>
    refine ⟨ih.1, ?_⟩
    intro r hr
    exact ih.2 r hr

/-- C2: in every reachable state (any sequence of `requestResource`,
`returnResource`, `checkReturnReminders` and `clearNotifications` applied to
the seeded initial state; the remaining operations are read-only queries),
the number of active assignments of every catalog resource never exceeds its
quantity. -/
theorem c2_capacity_invariant (s : ResourceAllocationState) (h : Reachable s) :
    ∀ r ∈ s.resources, activeAssignmentCount s r.id ≤ r.quantity :=
  (reachable_inv s h).2

/-- Witness for C2: after granting `P1` to alice and queueing bob behind
her, the state is reachable and `P1` (quantity 1) has exactly one active
assignment, within its capacity. -/
theorem c2_witness :
    activeAssignmentCount bobQueuedP1 "P1" ≤ 1 := by
  have hreach : Reachable bobQueuedP1 :=
    Reachable.request noMcp aliceHoldsP1 "P1" "bob" none "id-b" 200
      (Reachable.request noMcp seededState "P1" "alice" none "id-a" 100
        Reachable.seed)
  have h := c2_capacity_invariant bobQueuedP1 hreach
    { id := "P1", type := .parking, name := "Parking Spot 1", quantity := 1,
      metadata := some [("location", "Lot A")] }
    (by decide)
  exact h
